import Mathlib

/-!
Verification development for the rss-telegram feed monitor
(src/rss_telegram.py, src/config.py).

Python strings are embedded as lists of characters (`Str`), dictionaries
with string keys as association lists in insertion order, fallible code as
`Except`/`Option` values, and the Telegram transport as boolean oracles
giving the outcome of each send call.  Every definition is translated
from the Python source; definitions standing in for external libraries
(the `json` module, `html.unescape`) say so in their doc comment.
-/

/-- A Python string, embedded as its list of characters. -/
abbrev Str := List Char

/-- Conversion from a Lean string literal to the embedding type. -/
def str (s : String) : Str := s.data

/-- Python `str.strip()`: remove leading and trailing whitespace. -/
def pyStrip (s : Str) : Str :=
  ((s.dropWhile Char.isWhitespace).reverse.dropWhile Char.isWhitespace).reverse

/-- Helper for `pyWords`: scan with the current word accumulated in
reverse. -/
def pyWordsAux : Str → Str → List Str
  | cur, [] => if cur = [] then [] else [cur.reverse]
  | cur, c :: cs =>
    if c.isWhitespace then
      if cur = [] then pyWordsAux [] cs else cur.reverse :: pyWordsAux [] cs
    else pyWordsAux (c :: cur) cs

/-- Python `str.split()` with no separator: split on runs of whitespace,
dropping empty pieces. -/
def pyWords (s : Str) : List Str := pyWordsAux [] s

/-- config.py: CHECK_INTERVAL = 3600. -/
def CHECK_INTERVAL : Nat := 3600

/-- config.py: MAX_HISTORY_ITEMS = 200 (defined there, and referenced by
no line of rss_telegram.py). -/
def MAX_HISTORY_ITEMS : Nat := 200

/-- config.py: MAX_MESSAGE_LENGTH = 4096 (defined there, and referenced by
no line of rss_telegram.py). -/
def MAX_MESSAGE_LENGTH : Nat := 4096

/-- config.py: INCLUDE_DESCRIPTION = False. -/
def INCLUDE_DESCRIPTION : Bool := false

/-- config.py: DISABLE_NOTIFICATION = False. -/
def DISABLE_NOTIFICATION : Bool := false

/-- The tag-removal pass of `strip_html`: Python
`re.sub(r'<[^>]+>', '', html_content)`.  A match is a `<`, one or more
characters none of which is `>`, then `>`; non-overlapping matches are
removed left to right, and a `<` that opens no such match is kept. -/
def strip_tags : List Char → List Char
  | [] => []
  | c :: rest =>
    if c = '<' then
      let inner := rest.takeWhile (fun d => d ≠ '>')
      if inner.length ≠ 0 ∧ inner.length < rest.length then
        strip_tags (rest.drop (inner.length + 1))
      else
        c :: strip_tags rest
    else
      c :: strip_tags rest
termination_by l => l.length
decreasing_by
  · simp; omega
  · simp
  · simp

/-- Decimal value of a digit string, for numeric character references. -/
def decToNat (ds : List Char) : Nat :=
  ds.foldl (fun a c => a * 10 + (c.toNat - 48)) 0

/-- Embedding of the external `html.unescape` (Python standard library),
restricted to the five basic named entities and decimal numeric
references; other text is passed through unchanged. -/
def html_unescape : List Char → List Char
  | [] => []
  | '&' :: '#' :: ds =>
    let digits := ds.takeWhile Char.isDigit
    if digits.length ≠ 0 ∧ (ds.drop digits.length).head? = some ';' then
      Char.ofNat (decToNat digits) :: html_unescape (ds.drop (digits.length + 1))
    else '&' :: html_unescape ('#' :: ds)
  | '&' :: rest =>
    if (str "amp;").isPrefixOf rest then '&' :: html_unescape (rest.drop 4)
    else if (str "lt;").isPrefixOf rest then '<' :: html_unescape (rest.drop 3)
    else if (str "gt;").isPrefixOf rest then '>' :: html_unescape (rest.drop 3)
    else if (str "quot;").isPrefixOf rest then '"' :: html_unescape (rest.drop 5)
    else if (str "apos;").isPrefixOf rest then '\'' :: html_unescape (rest.drop 5)
    else '&' :: html_unescape rest
  | c :: rest => c :: html_unescape rest
termination_by l => l.length
decreasing_by all_goals (simp [List.length_drop]; try omega)

/-- strip_html (rss_telegram.py lines 20-26): remove tags, unescape
entities, and collapse whitespace runs to single spaces. -/
def strip_html (h : Str) : Str :=
  List.intercalate (str " ") (pyWords (html_unescape (strip_tags h)))

/-- The in-memory history store `sent_items`: a Python dict from feed URL
to the list of delivered entry identifiers, embedded as an association
list in insertion order. -/
abbrev Store := List (Str × List Str)

/-- Python `sent_items[feed]` as a partial lookup (first matching key). -/
def lookup? : Store → Str → Option (List Str)
  | [], _ => none
  | (k, v) :: rest, f => if k = f then some v else lookup? rest f

/-- Lookup with the empty record as default. -/
def lookupD (s : Store) (f : Str) : List Str := (lookup? s f).getD []

/-- Python `sent_items.setdefault(feed_url, [])` (rss_telegram.py line
189): insert an empty record if the key is absent. -/
def setdefault (s : Store) (f : Str) : Store :=
  match lookup? s f with
  | some _ => s
  | none => s ++ [(f, [])]

/-- Python `sent_items[feed_url].append(entry_id)` (rss_telegram.py line
206): append to the record of the first matching key, in place. -/
def appendId : Store → Str → Str → Store
  | [], _, _ => []
  | (k, v) :: rest, f, x =>
    if k = f then (k, v ++ [x]) :: rest else (k, v) :: appendId rest f x

/-- Python dict assignment `d[k] = v` during JSON decoding: replace the
value in place when the key exists, append otherwise. -/
def storeInsert : Store → Str → List Str → Store
  | [], k, v => [(k, v)]
  | (k', v') :: rest, k, v =>
    if k' = k then (k', v) :: rest else (k', v') :: storeInsert rest k v

/-- JSON whitespace. -/
def jsonWs (c : Char) : Bool := c = ' ' || c = '\n' || c = '\r' || c = '\t'

/-- Skip JSON whitespace. -/
def skipWs (s : Str) : Str := s.dropWhile jsonWs

/-- Hexadecimal digit value. -/
def hexVal (c : Char) : Option Nat :=
  if '0' ≤ c ∧ c ≤ '9' then some (c.toNat - 48)
  else if 'a' ≤ c ∧ c ≤ 'f' then some (c.toNat - 87)
  else if 'A' ≤ c ∧ c ≤ 'F' then some (c.toNat - 55)
  else none

/-- Single-character JSON string escapes. -/
def jsonEscape (c : Char) : Option Char :=
  if c = '"' then some '"'
  else if c = '\\' then some '\\'
  else if c = '/' then some '/'
  else if c = 'b' then some (Char.ofNat 8)
  else if c = 'f' then some (Char.ofNat 12)
  else if c = 'n' then some '\n'
  else if c = 'r' then some (Char.ofNat 13)
  else if c = 't' then some '\t'
  else none

/-- Body of a JSON string literal after the opening quote: the decoded
characters and the rest of the input after the closing quote. -/
def parseStrBody : Str → Option (Str × Str)
  | [] => none
  | '"' :: rest => some ([], rest)
  | '\\' :: 'u' :: h1 :: h2 :: h3 :: h4 :: rest =>
    match hexVal h1, hexVal h2, hexVal h3, hexVal h4 with
    | some a, some b, some c, some d =>
      (parseStrBody rest).map
        (fun p => (Char.ofNat (((a * 16 + b) * 16 + c) * 16 + d) :: p.1, p.2))
    | _, _, _, _ => none
  | '\\' :: e :: rest =>
    match jsonEscape e with
    | some c => (parseStrBody rest).map (fun p => (c :: p.1, p.2))
    | none => none
  | c :: rest => (parseStrBody rest).map (fun p => (c :: p.1, p.2))

/-- A JSON string literal. -/
def parseString (s : Str) : Option (Str × Str) :=
  match s with
  | '"' :: rest => parseStrBody rest
  | _ => none

/-- Elements of a JSON array of strings, after the opening bracket, with
at least one element; fuelled by the input length. -/
def parseIdsAux : Nat → Str → Option (List Str × Str)
  | 0, _ => none
  | fuel + 1, s =>
    match parseString (skipWs s) with
    | none => none
    | some (v, r) =>
      match skipWs r with
      | ',' :: r2 => (parseIdsAux fuel r2).map (fun p => (v :: p.1, p.2))
      | ']' :: r2 => some ([v], r2)
      | _ => none

/-- A JSON array of strings. -/
def parseIds (s : Str) : Option (List Str × Str) :=
  match s with
  | '[' :: r =>
    match skipWs r with
    | ']' :: r2 => some ([], r2)
    | r2 => parseIdsAux (r2.length + 1) r2
  | _ => none

/-- Members of a JSON object mapping strings to arrays of strings, after
the opening brace, with at least one member; fuelled by the input
length. -/
def parsePairsAux : Nat → Str → Store → Option (Store × Str)
  | 0, _, _ => none
  | fuel + 1, s, acc =>
    match parseString (skipWs s) with
    | none => none
    | some (k, r) =>
      match skipWs r with
      | ':' :: r2 =>
        match parseIds (skipWs r2) with
        | none => none
        | some (v, r3) =>
          match skipWs r3 with
          | ',' :: r4 => parsePairsAux fuel r4 (storeInsert acc k v)
          | '}' :: r4 => some (storeInsert acc k v, r4)
          | _ => none
      | _ => none

/-- Embedding of the external `json.load` (Python standard library)
specialised to the history schema: a JSON object mapping feed URLs to
arrays of identifier strings.  `none` is a JSONDecodeError (which for
this program also covers well-formed JSON of any other shape). -/
def parse_history (s : Str) : Option Store :=
  match skipWs s with
  | '{' :: r =>
    match skipWs r with
    | '}' :: r2 => if skipWs r2 = [] then some [] else none
    | r2 =>
      match parsePairsAux (r2.length + 1) r2 [] with
      | some (st, r3) => if skipWs r3 = [] then some st else none
      | none => none
  | _ => none

/-- load_sent_items (rss_telegram.py lines 52-58).  The history file's
state is `none` when data/sent_items.json is absent (FileNotFoundError)
and `some content` otherwise.  Absence and malformed content both yield
the empty store; a parsed store is returned as is. -/
def load_sent_items (file : Option Str) : Store :=
  match file with
  | none => []
  | some content => (parse_history content).getD []

/-- The Python exceptions reachable in the embedded fragment. -/
inductive PyError
  | nameError
  | attributeError
deriving DecidableEq

/-- load_feeds (rss_telegram.py lines 29-49).  With the feed-list file
present, lines are stripped and blank or `#`-prefixed ones dropped.  With
it absent (`none`), the FileNotFoundError handler evaluates
`os.makedirs`, but rss_telegram.py never imports `os` (config.py imports
it only into its own namespace), so the handler raises NameError before
creating the file; an exception raised inside an except block is caught
neither by the inner `except OSError` (a NameError is no OSError) nor by
the sibling `except Exception` clause of the same try statement, so it
escapes load_feeds. -/
def load_feeds (file : Option Str) : Except PyError (List Str) :=
  match file with
  | none => Except.error PyError.nameError
  | some content =>
    Except.ok ((((content.splitOn '\n').map pyStrip).filter
      (fun l => !l.isEmpty && !(l.head? == some '#'))))

/-- One attachment dictionary as feedparser presents it (an element of
`media_content`, `enclosures` or `media_thumbnail`): each field is
`media.get(...)`, absent keys giving `none`. -/
structure MediaItem where
  type : Option Str := none
  medium : Option Str := none
  url : Option Str := none
  href : Option Str := none
deriving DecidableEq

/-- One element of a feedparser `content` list. -/
structure ContentItem where
  value : Option Str := none
deriving DecidableEq

/-- A raw feedparser entry.  An `Option` field is `none` exactly when
`hasattr(entry, field)` is false. -/
structure RawEntry where
  id : Option Str := none
  link : Option Str := none
  title : Option Str := none
  description : Option Str := none
  summary : Option Str := none
  media_content : Option (List MediaItem) := none
  enclosures : Option (List MediaItem) := none
  media_thumbnail : Option (List MediaItem) := none
  content : Option (List ContentItem) := none
deriving DecidableEq

instance : Inhabited MediaItem := ⟨{}⟩

instance : Inhabited ContentItem := ⟨{}⟩

instance : Inhabited RawEntry := ⟨{}⟩

/-- The media_content test of extract_image (rss_telegram.py line 89):
`media.get('type', '').startswith('image/') or media.get('medium') ==
'image'`. -/
def media_pred (m : MediaItem) : Bool :=
  (str "image/").isPrefixOf (m.type.getD []) || m.medium == some (str "image")

/-- The enclosure test of extract_image (rss_telegram.py line 95):
`enclosure.get('type', '').startswith('image/')`. -/
def encl_pred (m : MediaItem) : Bool :=
  (str "image/").isPrefixOf (m.type.getD [])

/-- Case-insensitive literal prefix match, for the `re.IGNORECASE`
patterns. -/
def ciPrefix : Str → Str → Bool
  | [], _ => true
  | _ :: _, [] => false
  | p :: ps, c :: cs => p.toLower == c.toLower && ciPrefix ps cs

/-- Helper for the `<img ... src="...">` pattern: given the input right
after `src=`'s position candidate, require `src=` (case-insensitively),
an opening quote, and a lazily captured group closed by the next quote
(`.` matches no newline). -/
def srcCapture (u : Str) : Option Str :=
  if ciPrefix (str "src=") u then
    match u.drop 4 with
    | q :: body =>
      if q = '"' ∨ q = '\'' then
        let cap := body.takeWhile (fun c => ¬ (c = '"' ∨ c = '\''))
        if cap.length < body.length ∧ '\n' ∉ cap then some cap else none
      else none
    | [] => none
  else none

/-- Helper for the `<img ... src="...">` pattern: backtracking search for
the split of `[^>]+` — greedy, so the largest split is tried first; the
split is at least one character. -/
def srcSearch : Nat → Str → Option Str
  | 0, _ => none
  | k + 1, rest =>
    match srcCapture (rest.drop (k + 1)) with
    | some cap => some cap
    | none => srcSearch k rest

/-- Whether the regex `<img[^>]+src=["\'](.*?)["\']` (re.IGNORECASE)
matches at the head of the input, and the captured group if so. -/
def imgMatchAt (t : Str) : Option Str :=
  if ciPrefix (str "<img") t then
    let rest := t.drop 4
    srcSearch (rest.takeWhile (fun c => c ≠ '>')).length rest
  else none

/-- Embedding of `re.search(r'<img[^>]+src=["\'](.*?)["\']', s,
re.IGNORECASE)` (rss_telegram.py lines 105 and 113): the group captured
at the leftmost match position. -/
def find_img_src : Str → Option Str
  | [] => none
  | c :: cs =>
    match imgMatchAt (c :: cs) with
    | some cap => some cap
    | none => find_img_src cs

/-- The `description or summary` fallback used by extract_image (line
103) and send_single_article (line 125): Python `or` takes the second
operand when the first is empty. -/
def desc_or_summary (e : RawEntry) : Str :=
  if e.description.getD [] ≠ [] then e.description.getD [] else e.summary.getD []

/-- Stages 4-5 of extract_image (description markup, then content
blocks). -/
def extract_image_rest3 (e : RawEntry) : Option Str :=
  match find_img_src (desc_or_summary e) with
  | some cap => some cap
  | none => (e.content.getD []).findSome? (fun c => find_img_src (c.value.getD []))

/-- Stages 3-5 of extract_image (media_thumbnail onwards). -/
def extract_image_rest2 (e : RawEntry) : Option Str :=
  match e.media_thumbnail with
  | some (t :: _) => t.url
  | _ => extract_image_rest3 e

/-- Stages 2-5 of extract_image (enclosures onwards). -/
def extract_image_rest (e : RawEntry) : Option Str :=
  match e.enclosures with
  | some es =>
    match es.find? encl_pred with
    | some m => m.href
    | none => extract_image_rest2 e
  | none => extract_image_rest2 e

/-- extract_image (rss_telegram.py lines 84-117), with each `for`/`if`
chain over attachments rendered by `List.find?` and the early `return`
structure kept: a matching media_content or enclosure attachment or a
first thumbnail returns its (possibly absent) URL field immediately,
otherwise the description markup and then each content block are searched
for an `<img src=...>` occurrence. -/
def extract_image (e : RawEntry) : Option Str :=
  match e.media_content with
  | some ms =>
    match ms.find? media_pred with
    | some m => m.url
    | none => extract_image_rest e
  | none => extract_image_rest e

/-- The local description limit of send_single_article
(rss_telegram.py line 130): `max_desc_len = 800`. -/
def max_desc_len : Nat := 800

/-- The ellipsis marker appended on truncation (line 132). -/
def ellipsis : Str := str "..."

/-- The truncation step of send_single_article (lines 131-132):
`if len(description) > max_desc_len: description =
description[:max_desc_len-3] + "..."`. -/
def truncate_description (d : Str) : Str :=
  if max_desc_len < d.length then d.take (max_desc_len - 3) ++ ellipsis else d

/-- The description rendered by send_single_article (lines 125-132):
`strip_html(description or summary)` when INCLUDE_DESCRIPTION is set,
else the empty string, then truncated. -/
def rendered_description (e : RawEntry) (incDesc : Bool) : Str :=
  truncate_description (if incDesc then strip_html (desc_or_summary e) else [])

/-- The message text built by send_single_article (lines 121-137):
the f-string of line 135 plus `"\n\n" + description` when the rendered
description is non-empty.  The bullet literal in the source file is the
three-character sequence â€¢ (bytes c3 a2, e2 82 ac, c2 a2 read as
UTF-8), so the prefix before the title is five characters long. -/
def message_text (e : RawEntry) (feed_title : Str) (incDesc : Bool) : Str :=
  let title := e.title.getD (str "No title")
  let link := e.link.getD []
  let base := str "â€¢ [" ++ title ++ str "](" ++ link ++ str ")\n_" ++
    feed_title ++ str "_"
  let d := rendered_description e incDesc
  if d ≠ [] then base ++ str "\n\n" ++ d else base

/-- One call into the Telegram transport made by send_single_article:
`bot.send_photo(photo=..., caption=...)` or `bot.send_message(text=...)`. -/
inductive SendAttempt
  | photo (url : Str) (caption : Str)
  | text (body : Str)
deriving DecidableEq

/-- send_single_article (rss_telegram.py lines 119-164).  The Telegram
transport is external; `photoOk` and `textOk` give the outcome of the
photo send and of the text send for this call.  Returns the function's
boolean result together with the transport calls made, in order: with a
truthy image URL the photo send is attempted first and on its failure the
text send is attempted with the same message text; without one only the
text send is attempted.  The result is `true` exactly when the attempt
that was made succeeds. -/
def send_single_article (e : RawEntry) (feed_title : Str)
    (incDesc photoOk textOk : Bool) : Bool × List SendAttempt :=
  let msg := message_text e feed_title incDesc
  match extract_image e with
  | some url =>
    if url ≠ [] then
      if photoOk then (true, [SendAttempt.photo url msg])
      else (textOk, [SendAttempt.photo url msg, SendAttempt.text msg])
    else (textOk, [SendAttempt.text msg])
  | none => (textOk, [SendAttempt.text msg])

/-- The observable events of one poll cycle, in order: each
send_single_article call (feed URL, the entry's dedup identifier, the
boolean result), and each `save_sent_items(sent_items)` call (line 207),
tagged with the feed URL and identifier whose delivery triggered it and
the store written. -/
inductive Event
  | attempt (feed : Str) (eid : Str) (success : Bool)
  | save (feed : Str) (eid : Str) (store : Store)
deriving DecidableEq

/-- What feedparser.parse returned for one URL: `feed.entries` and
`feed.feed.title` (absent when the parsed feed has no title). -/
structure FeedData where
  entries : List RawEntry := []
  title : Option Str := none

/-- The external world of one poll cycle: the parse result for each feed
URL, the INCLUDE_DESCRIPTION configuration, and the outcome oracles of
the n-th photo and text transport calls (counted per
send_single_article call). -/
structure Env where
  fetch : Str → FeedData
  incDesc : Bool := false
  photoOk : Nat → Bool := fun _ => true
  textOk : Nat → Bool := fun _ => true

/-- The dedup identifier of check_feeds (lines 194 and 200): `entry.id if
hasattr(entry, 'id') else entry.link`; with both attributes absent,
`entry.link` raises AttributeError. -/
def entry_dedup_id (e : RawEntry) : Except PyError Str :=
  match e.id with
  | some i => Except.ok i
  | none =>
    match e.link with
    | some l => Except.ok l
    | none => Except.error PyError.attributeError

/-- The new-entry scan of check_feeds (lines 192-196): each entry in feed
order whose dedup identifier is not in the history record, paired with
that identifier (the loop at line 200 recomputes the same identifier);
an entry with neither id nor link aborts the scan with AttributeError. -/
def new_pairs : List RawEntry → List Str → Except PyError (List (Str × RawEntry))
  | [], _ => Except.ok []
  | e :: rest, hist =>
    match entry_dedup_id e with
    | Except.error err => Except.error err
    | Except.ok i =>
      match new_pairs rest hist with
      | Except.error err => Except.error err
      | Except.ok tl => Except.ok (if i ∈ hist then tl else (i, e) :: tl)

/-- The delivery loop of check_feeds (lines 199-208) over the reversed
new-entry list: attempt each entry in order; on success append its
identifier to the feed's record and write the store out.  `n` numbers the
send_single_article calls of the cycle for the outcome oracles.  Returns
the final store, the next call number and the events in order. -/
def deliver_loop (env : Env) (feed_url feed_title : Str) :
    List (Str × RawEntry) → Store → Nat → Store × Nat × List Event
  | [], s, n => (s, n, [])
  | (eid, e) :: rest, s, n =>
    let ok := (send_single_article e feed_title env.incDesc
      (env.photoOk n) (env.textOk n)).1
    if ok then
      let s' := appendId s feed_url eid
      let r := deliver_loop env feed_url feed_title rest s' (n + 1)
      (r.1, r.2.1, Event.attempt feed_url eid true ::
        Event.save feed_url eid s' :: r.2.2)
    else
      let r := deliver_loop env feed_url feed_title rest s (n + 1)
      (r.1, r.2.1, Event.attempt feed_url eid false :: r.2.2)

/-- The body of check_feeds' per-feed loop (lines 175-211): skip blank
URLs and feeds with no entries, otherwise create the feed's record if
absent, scan for new entries and deliver them oldest-first.  The per-feed
`try`/`except` catches the AttributeError of the new-entry scan, keeping
the mutations already made (the setdefault) and moving on. -/
def process_feed (env : Env) (s : Store) (n : Nat) (feed_url : Str) :
    Store × Nat × List Event :=
  if pyStrip feed_url = [] then (s, n, [])
  else
    let fd := env.fetch feed_url
    if fd.entries = [] then (s, n, [])
    else
      let feed_title := fd.title.getD feed_url
      let s1 := setdefault s feed_url
      match new_pairs fd.entries (lookupD s1 feed_url) with
      | Except.error _ => (s1, n, [])
      | Except.ok pairs => deliver_loop env feed_url feed_title pairs.reverse s1 n

/-- check_feeds' iteration over the loaded feed list, threading the store
and the transport call counter and concatenating the events. -/
def feeds_loop (env : Env) : List Str → Store → Nat → Store × List Event
  | [], s, _ => (s, [])
  | f :: rest, s, n =>
    let r1 := process_feed env s n f
    let r2 := feeds_loop env rest r1.1 r1.2.1
    (r2.1, r1.2.2 ++ r2.2)

/-- check_feeds (rss_telegram.py lines 166-213): load the history store
and the feed list, return the store unchanged when the list is empty,
otherwise run the per-feed loop.  A NameError escaping load_feeds (feed
file absent) propagates out of check_feeds, which then returns no
store. -/
def check_feeds (env : Env) (histFile feedsFile : Option Str) :
    Except PyError (Store × List Event) :=
  let sent := load_sent_items histFile
  match load_feeds feedsFile with
  | Except.error err => Except.error err
  | Except.ok feeds =>
    if feeds = [] then Except.ok (sent, [])
    else Except.ok (feeds_loop env feeds sent 0)

/-- Iterated poll cycles over an in-memory store, as the claims'
"later cycles" read: each cycle runs the per-feed loop of check_feeds
under its own environment and feed list, starting from the store the
previous cycle returned. -/
def run_cycles : List (Env × List Str) → Store → Store × List Event
  | [], s => (s, [])
  | (env, fs) :: rest, s =>
    let r1 := feeds_loop env fs s 0
    let r2 := run_cycles rest r1.1
    (r2.1, r1.2 ++ r2.2)

/-- The identifiers of the delivery attempts in an event list, in
order. -/
def attempted_ids (evs : List Event) : List Str :=
  evs.filterMap (fun ev =>
    match ev with
    | Event.attempt _ i _ => some i
    | _ => none)

/-- A newest-first three-entry feed for the ordering scenario: E3 is the
newest entry, E1 the oldest. -/
def entryE1 : RawEntry := { id := some (str "i1"), link := some (str "l1"), title := some (str "E1") }

/-- Middle entry of the ordering scenario. -/
def entryE2 : RawEntry := { id := some (str "i2"), link := some (str "l2"), title := some (str "E2") }

/-- Newest entry of the ordering scenario. -/
def entryE3 : RawEntry := { id := some (str "i3"), link := some (str "l3"), title := some (str "E3") }

/-- Environment for the ordering scenario: every feed parses to
[E3, E2, E1] and every transport call succeeds. -/
def envOrd : Env := { fetch := fun _ => { entries := [entryE3, entryE2, entryE1], title := some (str "T") } }

/-- The new-entry pairs of the ordering scenario, in feed order. -/
def pairsOrd : List (Str × RawEntry) :=
  [(str "i3", entryE3), (str "i2", entryE2), (str "i1", entryE1)]

/-- The cycle of the ordering scenario: empty history, one feed URL. -/
def runOrd : Store × List Event :=
  (check_feeds envOrd none (some (str "u"))).toOption.getD ([], [])

/-- An entry whose only attribute is an id, for the history-growth
scenario. -/
def entryX : RawEntry := { id := some (str "x") }

/-- Environment delivering `k` entries on every feed with all transport
calls succeeding, for the history-growth scenario. -/
def envK (k : Nat) : Env := { fetch := fun _ => { entries := List.replicate k entryX } }

/-- An entry carrying an image enclosure, for the image-fallback
scenario. -/
def entryImg : RawEntry := { enclosures := some [{ type := some (str "image/png"), href := some (str "http://x/p.png") }] }

/-- A well-formed history file content used by witnesses. -/
def goodHist : Str := str "\x7b\"a\": [\"x\"]\x7d"

/-- The cycle of the monotonicity witness: feed list file present but
holding no URLs, so the loaded store is returned unchanged. -/
def runMono : Store × List Event :=
  (check_feeds envOrd (some goodHist) (some (str ""))).toOption.getD ([], [])

/-- One store extends another: every record of the first is an initial
segment of the same key's record in the second (identifiers keep their
relative positions). -/
def storeExt (s s' : Store) : Prop :=
  ∀ f l, lookup? s f = some l → ∃ ext, lookup? s' f = some (l ++ ext)

/-- Lookup distributes over append of stores. -/
theorem lookup?_append (s t : Store) (g : Str) :
    lookup? (s ++ t) g = ((lookup? s g).rec (lookup? t g) fun v => some v) := by
  induction s with
  | nil => simp [lookup?]
  | cons p rest ih =>
    obtain ⟨k, v⟩ := p
    by_cases h : k = g <;> simp [lookup?, h, ih]

/-- setdefault leaves present keys alone and inserts an empty record for
the key otherwise. -/
theorem lookup?_setdefault (s : Store) (f g : Str) :
    lookup? (setdefault s f) g =
      if g = f then some (lookupD s f) else lookup? s g := by
  unfold setdefault
  cases hf : lookup? s f with
  | some v =>
    by_cases h : g = f <;> simp [h, lookupD, hf]
  | none =>
    rw [lookup?_append]
    by_cases h : g = f
    · subst h
      simp [hf, lookup?, lookupD]
    · have hfg : ¬ f = g := fun hh => h (Eq.symm hh)
      cases hg : lookup? s g <;> simp [lookup?, h, hf, lookupD, hg, hfg]

/-- Appending to an absent key is a no-op (the Python code never does
this: setdefault has always run first). -/
theorem appendId_of_none (s : Store) (f x : Str) (h : lookup? s f = none) :
    appendId s f x = s := by
  induction s with
  | nil => rfl
  | cons p rest ih =>
    obtain ⟨k, v⟩ := p
    by_cases hk : k = f
    · simp [lookup?, hk] at h
    · simp [lookup?, hk] at h
      simp [appendId, hk, ih h]

/-- Appending to a present key appends to its record. -/
theorem lookup?_appendId_self (s : Store) (f x : Str) (l : List Str)
    (h : lookup? s f = some l) :
    lookup? (appendId s f x) f = some (l ++ [x]) := by
  induction s with
  | nil => simp [lookup?] at h
  | cons p rest ih =>
    obtain ⟨k, v⟩ := p
    by_cases hk : k = f
    · subst hk
      simp [lookup?] at h
      simp [appendId, lookup?, h]
    · simp [lookup?, hk] at h
      simp [appendId, lookup?, hk, ih h]

/-- Appending never changes another key's record. -/
theorem lookup?_appendId_ne (s : Store) (f x g : Str) (h : g ≠ f) :
    lookup? (appendId s f x) g = lookup? s g := by
  induction s with
  | nil => rfl
  | cons p rest ih =>
    obtain ⟨k, v⟩ := p
    by_cases hk : k = f
    · subst hk
      have hkg : ¬ (k = g) := fun hh => h (Eq.symm hh)
      simp [appendId, lookup?, hkg]
    · simp [appendId, hk, lookup?, ih]

/-- Store extension is reflexive. -/
theorem storeExt_refl (s : Store) : storeExt s s :=
  fun _ l h => ⟨[], by simp [h]⟩

/-- Store extension is transitive. -/
theorem storeExt_trans {s t u : Store} (h1 : storeExt s t) (h2 : storeExt t u) :
    storeExt s u := by
  intro f l hl
  obtain ⟨e1, he1⟩ := h1 f l hl
  obtain ⟨e2, he2⟩ := h2 f (l ++ e1) he1
  exact ⟨e1 ++ e2, by simp [he2]⟩

/-- setdefault extends the store. -/
theorem storeExt_setdefault (s : Store) (f : Str) : storeExt s (setdefault s f) := by
  intro g l hl
  refine ⟨[], ?_⟩
  rw [lookup?_setdefault]
  by_cases h : g = f
  · subst h
    simp [lookupD, hl]
  · simp [h, hl]

/-- appendId extends the store. -/
theorem storeExt_appendId (s : Store) (f x : Str) : storeExt s (appendId s f x) := by
  intro g l hl
  by_cases h : g = f
  · subst h
    exact ⟨[x], lookup?_appendId_self s g x l hl⟩
  · exact ⟨[], by simp [lookup?_appendId_ne s f x g h, hl]⟩

/-- Membership in a record survives store extension. -/
theorem mem_lookupD_of_storeExt {s s' : Store} (h : storeExt s s') {f x}
    (hx : x ∈ lookupD s f) : x ∈ lookupD s' f := by
  unfold lookupD at hx ⊢
  cases hl : lookup? s f with
  | none => simp [hl] at hx
  | some l =>
    obtain ⟨ext, hext⟩ := h f l hl
    rw [hl] at hx
    simp [hext]
    exact Or.inl hx

/-- A member of a record after appendId was a member before, or is the
appended identifier at the appended key. -/
theorem mem_lookupD_appendId {s : Store} {f x g y}
    (h : y ∈ lookupD (appendId s f x) g) :
    y ∈ lookupD s g ∨ (y = x ∧ g = f) := by
  by_cases hg : g = f
  · subst hg
    cases hl : lookup? s g with
    | none => rw [appendId_of_none s g x hl] at h; exact Or.inl h
    | some l =>
      rw [lookupD, lookup?_appendId_self s g x l hl] at h
      simp at h
      rcases h with h | h
      · exact Or.inl (by simp [lookupD, hl, h])
      · exact Or.inr ⟨h, rfl⟩
  · rw [lookupD, lookup?_appendId_ne s f x g hg] at h
    exact Or.inl h

/-- setdefault changes no record as read through lookupD. -/
theorem lookupD_setdefault (s : Store) (f g : Str) :
    lookupD (setdefault s f) g = lookupD s g := by
  unfold lookupD
  rw [lookup?_setdefault]
  by_cases h : g = f <;> simp [h, lookupD]

/-- The delivery loop only extends the store. -/
theorem deliver_loop_storeExt (env : Env) (f t : Str) :
    ∀ pairs s n, storeExt s (deliver_loop env f t pairs s n).1 := by
  intro pairs
  induction pairs with
  | nil => intro s n; simp [deliver_loop]; exact storeExt_refl s
  | cons p rest ih =>
    intro s n
    obtain ⟨eid, e⟩ := p
    by_cases hok : (send_single_article e t env.incDesc (env.photoOk n) (env.textOk n)).1 = true
    · simp [deliver_loop, hok]
      exact storeExt_trans (storeExt_appendId s f eid) (ih _ _)
    · simp [deliver_loop, hok]
      exact ih _ _

/-- Every attempt event of the delivery loop carries the loop's feed URL
and an identifier of its input list. -/
theorem deliver_loop_attempt_mem (env : Env) (f t : Str) :
    ∀ pairs s n g y b,
      Event.attempt g y b ∈ (deliver_loop env f t pairs s n).2.2 →
      g = f ∧ y ∈ pairs.map Prod.fst := by
  intro pairs
  induction pairs with
  | nil => intro s n g y b h; simp [deliver_loop] at h
  | cons p rest ih =>
    intro s n g y b h
    obtain ⟨eid, e⟩ := p
    by_cases hok : (send_single_article e t env.incDesc (env.photoOk n) (env.textOk n)).1 = true
    · simp [deliver_loop, hok] at h ⊢
      rcases h with ⟨hg, hy, _⟩ | h
      · exact ⟨hg, Or.inl hy⟩
      · obtain ⟨hg, hmem⟩ := ih _ _ _ _ _ h
        exact ⟨hg, Or.inr (by simpa using hmem)⟩
    · simp [deliver_loop, hok] at h ⊢
      rcases h with ⟨hg, hy, _⟩ | h
      · exact ⟨hg, Or.inl hy⟩
      · obtain ⟨hg, hmem⟩ := ih _ _ _ _ _ h
        exact ⟨hg, Or.inr (by simpa using hmem)⟩

/-- Every save event of the delivery loop comes with the successful
attempt whose delivery it persists. -/
theorem deliver_loop_save_attempt (env : Env) (f t : Str) :
    ∀ pairs s n g y st,
      Event.save g y st ∈ (deliver_loop env f t pairs s n).2.2 →
      g = f ∧ Event.attempt g y true ∈ (deliver_loop env f t pairs s n).2.2 := by
  intro pairs
  induction pairs with
  | nil => intro s n g y st h; simp [deliver_loop] at h
  | cons p rest ih =>
    intro s n g y st h
    obtain ⟨eid, e⟩ := p
    by_cases hok : (send_single_article e t env.incDesc (env.photoOk n) (env.textOk n)).1 = true
    · simp [deliver_loop, hok] at h ⊢
      rcases h with ⟨hg, hy, _⟩ | h
      · exact ⟨hg, Or.inl ⟨hg, hy⟩⟩
      · obtain ⟨hg, hmem⟩ := ih _ _ _ _ _ h
        exact ⟨hg, Or.inr hmem⟩
    · simp [deliver_loop, hok] at h ⊢
      exact ih _ _ _ _ _ h

/-- Every identifier of the store after the delivery loop was there
before, or was recorded by a successful attempt of the loop. -/
theorem deliver_loop_mem_lookupD (env : Env) (f t : Str) :
    ∀ pairs s n F y,
      y ∈ lookupD (deliver_loop env f t pairs s n).1 F →
      y ∈ lookupD s F ∨
        Event.attempt F y true ∈ (deliver_loop env f t pairs s n).2.2 := by
  intro pairs
  induction pairs with
  | nil => intro s n F y h; simp [deliver_loop] at h ⊢; exact h
  | cons p rest ih =>
    intro s n F y h
    obtain ⟨eid, e⟩ := p
    by_cases hok : (send_single_article e t env.incDesc (env.photoOk n) (env.textOk n)).1 = true
    · simp [deliver_loop, hok] at h ⊢
      rcases ih _ _ _ _ h with h2 | h2
      · rcases mem_lookupD_appendId h2 with h3 | ⟨h3, h4⟩
        · exact Or.inl h3
        · exact Or.inr (Or.inl ⟨h4, h3⟩)
      · exact Or.inr (Or.inr h2)
    · simp [deliver_loop, hok] at h ⊢
      rcases ih _ _ _ _ h with h2 | h2
      · exact Or.inl h2
      · exact Or.inr h2

/-- The delivery loop attempts exactly its input identifiers, in input
order. -/
theorem deliver_loop_attempted (env : Env) (f t : Str) :
    ∀ pairs s n,
      attempted_ids (deliver_loop env f t pairs s n).2.2 = pairs.map Prod.fst := by
  intro pairs
  induction pairs with
  | nil => intro s n; simp [deliver_loop, attempted_ids]
  | cons p rest ih =>
    intro s n
    obtain ⟨eid, e⟩ := p
    by_cases hok : (send_single_article e t env.incDesc (env.photoOk n) (env.textOk n)).1 = true
    · simp [deliver_loop, hok, attempted_ids] at ih ⊢
      exact ih _ _
    · simp [deliver_loop, hok, attempted_ids] at ih ⊢
      exact ih _ _

/-- Identifiers the new-entry scan returns were not in the history record
it was given. -/
theorem new_pairs_fresh :
    ∀ es hist pairs, new_pairs es hist = Except.ok pairs →
      ∀ i e, (i, e) ∈ pairs → i ∉ hist := by
  intro es
  induction es with
  | nil =>
    intro hist pairs h i e hmem
    simp [new_pairs] at h
    subst h
    simp at hmem
  | cons e0 rest ih =>
    intro hist pairs h i e hmem
    unfold new_pairs at h
    cases hid : entry_dedup_id e0 with
    | error err => simp [hid] at h
    | ok i0 =>
      simp [hid] at h
      cases htl : new_pairs rest hist with
      | error err => simp [htl] at h
      | ok tl =>
        simp [htl] at h
        by_cases hin : i0 ∈ hist
        · simp [hin] at h
          subst h
          exact ih hist tl htl i e hmem
        · simp [hin] at h
          subst h
          rcases List.mem_cons.mp hmem with h2 | h2
          · cases h2
            exact hin
          · exact ih hist tl htl i e h2

/-- process_feed only extends the store. -/
theorem process_feed_storeExt (env : Env) (s : Store) (n : Nat) (f : Str) :
    storeExt s (process_feed env s n f).1 := by
  unfold process_feed
  by_cases h1 : pyStrip f = []
  · simp [h1]; exact storeExt_refl s
  · simp [h1]
    by_cases h2 : (env.fetch f).entries = []
    · simp [h2]; exact storeExt_refl s
    · simp [h2]
      cases hnp : new_pairs (env.fetch f).entries (lookupD (setdefault s f) f) with
      | error err => simp; exact storeExt_setdefault s f
      | ok pairs =>
        simp
        exact storeExt_trans (storeExt_setdefault s f) (deliver_loop_storeExt _ _ _ _ _ _)

/-- No identifier already in a record of the store at the head of
process_feed is attempted by it. -/
theorem process_feed_no_reattempt (env : Env) (s : Store) (n : Nat) (f : Str)
    (F y : Str) (b : Bool) (hy : y ∈ lookupD s F) :
    Event.attempt F y b ∉ (process_feed env s n f).2.2 := by
  unfold process_feed
  by_cases h1 : pyStrip f = []
  · simp [h1]
  · simp [h1]
    by_cases h2 : (env.fetch f).entries = []
    · simp [h2]
    · simp [h2]
      cases hnp : new_pairs (env.fetch f).entries (lookupD (setdefault s f) f) with
      | error err => simp
      | ok pairs =>
        simp
        intro hmem
        obtain ⟨hgf, hper⟩ := deliver_loop_attempt_mem env f _ pairs.reverse _ n F y b hmem
        subst hgf
        have hyin : y ∈ pairs.map Prod.fst := by simpa using hper
        obtain ⟨⟨i, e⟩, hpe, hie⟩ := List.mem_map.mp hyin
        cases hie
        have := new_pairs_fresh _ _ _ hnp _ _ hpe
        rw [lookupD_setdefault] at this
        exact this hy

/-- Every save event of process_feed has a matching successful attempt in
its events. -/
theorem process_feed_save_attempt (env : Env) (s : Store) (n : Nat) (f : Str)
    (F y : Str) (st : Store)
    (h : Event.save F y st ∈ (process_feed env s n f).2.2) :
    Event.attempt F y true ∈ (process_feed env s n f).2.2 := by
  unfold process_feed at h ⊢
  by_cases h1 : pyStrip f = []
  · simp [h1] at h
  · simp [h1] at h ⊢
    by_cases h2 : (env.fetch f).entries = []
    · simp [h2] at h
    · simp [h2] at h ⊢
      cases hnp : new_pairs (env.fetch f).entries (lookupD (setdefault s f) f) with
      | error err => simp [hnp] at h
      | ok pairs =>
        simp [hnp] at h ⊢
        exact (deliver_loop_save_attempt env f _ pairs.reverse _ n F y st h).2

/-- Every identifier of the store after process_feed was there before, or
was recorded by a successful attempt of its events. -/
theorem process_feed_mem_lookupD (env : Env) (s : Store) (n : Nat) (f : Str)
    (F y : Str) (h : y ∈ lookupD (process_feed env s n f).1 F) :
    y ∈ lookupD s F ∨ Event.attempt F y true ∈ (process_feed env s n f).2.2 := by
  unfold process_feed at h ⊢
  by_cases h1 : pyStrip f = []
  · simp [h1] at h ⊢; exact h
  · simp [h1] at h ⊢
    by_cases h2 : (env.fetch f).entries = []
    · simp [h2] at h ⊢; exact h
    · simp [h2] at h ⊢
      cases hnp : new_pairs (env.fetch f).entries (lookupD (setdefault s f) f) with
      | error err =>
        simp [hnp] at h ⊢
        rw [lookupD_setdefault] at h
        exact h
      | ok pairs =>
        simp [hnp] at h ⊢
        rcases deliver_loop_mem_lookupD env f _ pairs.reverse _ n F y h with h2 | h2
        · rw [lookupD_setdefault] at h2
          exact Or.inl h2
        · exact Or.inr h2

/-- The per-cycle feed loop only extends the store. -/
theorem feeds_loop_storeExt (env : Env) :
    ∀ feeds s n, storeExt s (feeds_loop env feeds s n).1 := by
  intro feeds
  induction feeds with
  | nil => intro s n; simp [feeds_loop]; exact storeExt_refl s
  | cons f rest ih =>
    intro s n
    simp [feeds_loop]
    exact storeExt_trans (process_feed_storeExt env s n f) (ih _ _)

/-- No identifier already recorded when the feed loop starts is attempted
during it. -/
theorem feeds_loop_no_reattempt (env : Env) :
    ∀ feeds s n F y b, y ∈ lookupD s F →
      Event.attempt F y b ∉ (feeds_loop env feeds s n).2 := by
  intro feeds
  induction feeds with
  | nil => intro s n F y b hy; simp [feeds_loop]
  | cons f rest ih =>
    intro s n F y b hy
    simp [feeds_loop]
    refine ⟨process_feed_no_reattempt env s n f F y b hy, ?_⟩
    exact ih _ _ F y b (mem_lookupD_of_storeExt (process_feed_storeExt env s n f) hy)

/-- Every save event of the feed loop has a matching successful attempt
in its events. -/
theorem feeds_loop_save_attempt (env : Env) :
    ∀ feeds s n F y st, Event.save F y st ∈ (feeds_loop env feeds s n).2 →
      Event.attempt F y true ∈ (feeds_loop env feeds s n).2 := by
  intro feeds
  induction feeds with
  | nil => intro s n F y st h; simp [feeds_loop] at h
  | cons f rest ih =>
    intro s n F y st h
    simp [feeds_loop] at h ⊢
    rcases h with h | h
    · exact Or.inl (process_feed_save_attempt env s n f F y st h)
    · exact Or.inr (ih _ _ F y st h)

/-- Every identifier of the store after the feed loop was there at its
start, or was recorded by a successful attempt of the loop. -/
theorem feeds_loop_mem_lookupD (env : Env) :
    ∀ feeds s n F y, y ∈ lookupD (feeds_loop env feeds s n).1 F →
      y ∈ lookupD s F ∨ Event.attempt F y true ∈ (feeds_loop env feeds s n).2 := by
  intro feeds
  induction feeds with
  | nil => intro s n F y h; simp [feeds_loop] at h ⊢; exact h
  | cons f rest ih =>
    intro s n F y h
    simp [feeds_loop] at h ⊢
    rcases ih _ _ F y h with h2 | h2
    · rcases process_feed_mem_lookupD env s n f F y h2 with h3 | h3
      · exact Or.inl h3
      · exact Or.inr (Or.inl h3)
    · exact Or.inr (Or.inr h2)

/-- Iterated cycles only extend the store. -/
theorem run_cycles_storeExt :
    ∀ cycles s, storeExt s (run_cycles cycles s).1 := by
  intro cycles
  induction cycles with
  | nil => intro s; simp [run_cycles]; exact storeExt_refl s
  | cons c rest ih =>
    intro s
    obtain ⟨env, fs⟩ := c
    simp [run_cycles]
    exact storeExt_trans (feeds_loop_storeExt env fs s 0) (ih _)

/-- No identifier already recorded before a run of cycles is attempted in
any of them. -/
theorem run_cycles_no_reattempt :
    ∀ cycles s F y b, y ∈ lookupD s F →
      Event.attempt F y b ∉ (run_cycles cycles s).2 := by
  intro cycles
  induction cycles with
  | nil => intro s F y b hy; simp [run_cycles]
  | cons c rest ih =>
    intro s F y b hy
    obtain ⟨env, fs⟩ := c
    simp [run_cycles]
    refine ⟨feeds_loop_no_reattempt env fs s 0 F y b hy, ?_⟩
    exact ih _ F y b (mem_lookupD_of_storeExt (feeds_loop_storeExt env fs s 0) hy)

/-- Every save event of a run of cycles has a matching successful attempt
in its events. -/
theorem run_cycles_save_attempt :
    ∀ cycles s F y st, Event.save F y st ∈ (run_cycles cycles s).2 →
      Event.attempt F y true ∈ (run_cycles cycles s).2 := by
  intro cycles
  induction cycles with
  | nil => intro s F y st h; simp [run_cycles] at h
  | cons c rest ih =>
    intro s F y st h
    obtain ⟨env, fs⟩ := c
    simp [run_cycles] at h ⊢
    rcases h with h | h
    · exact Or.inl (feeds_loop_save_attempt env fs s 0 F y st h)
    · exact Or.inr (ih _ F y st h)

/-- Every identifier recorded after a run of cycles was recorded before
it, or by a successful attempt of one of its cycles. -/
theorem run_cycles_mem_lookupD :
    ∀ cycles s F y, y ∈ lookupD (run_cycles cycles s).1 F →
      y ∈ lookupD s F ∨ Event.attempt F y true ∈ (run_cycles cycles s).2 := by
  intro cycles
  induction cycles with
  | nil => intro s F y h; simp [run_cycles] at h ⊢; exact h
  | cons c rest ih =>
    intro s F y h
    obtain ⟨env, fs⟩ := c
    simp [run_cycles] at h ⊢
    rcases ih _ F y h with h2 | h2
    · rcases feeds_loop_mem_lookupD env fs s 0 F y h2 with h3 | h3
      · exact Or.inl h3
      · exact Or.inr (Or.inl h3)
    · exact Or.inr (Or.inr h2)

/-- C3 (code-bug evidence): with the feed-list file absent, load_feeds
does not create it and return the empty list with a warning as specified:
its FileNotFoundError handler evaluates `os.makedirs` with `os` never
imported by the module, so a NameError escapes load_feeds (an exception
raised inside an except block is not caught by the sibling clauses of the
same try), and check_feeds propagates it instead of completing the
cycle. -/
theorem load_feeds_absent_raises (env : Env) (hist : Option Str) :
    load_feeds none = Except.error PyError.nameError ∧
    check_feeds env hist none = Except.error PyError.nameError :=
  ⟨rfl, rfl⟩

/-- C5: a description longer than max_desc_len (800) renders as exactly
its first 797 characters followed by the three-character ellipsis marker,
800 characters in all; a description of at most 800 characters is
unchanged. -/
theorem truncation_exact (d : Str) :
    (max_desc_len < d.length →
      truncate_description d = d.take (max_desc_len - 3) ++ ellipsis ∧
      (truncate_description d).length = max_desc_len) ∧
    (d.length ≤ max_desc_len → truncate_description d = d) := by
  constructor
  · intro h
    have he : truncate_description d = d.take (max_desc_len - 3) ++ ellipsis := by
      simp [truncate_description, h]
    refine ⟨he, ?_⟩
    rw [he, List.length_append, List.length_take]
    have hel : ellipsis.length = 3 := rfl
    rw [hel]
    simp [max_desc_len] at h ⊢
    omega
  · intro h
    simp [truncate_description, Nat.not_lt.mpr h]

/-- Witness for C5 at a thousand-character description and at a short
one. -/
theorem truncation_exact_witness :
    (truncate_description (List.replicate 1000 'a')).length = max_desc_len ∧
    truncate_description (str "short") = str "short" :=
  ⟨((truncation_exact (List.replicate 1000 'a')).1
      (by rw [List.length_replicate]; norm_num [max_desc_len])).2,
   (truncation_exact (str "short")).2 (by decide)⟩

/-- C8: load_sent_items is total on bad input: an absent history file and
malformed content both give the empty store, and a parsed store is
returned as is, so the caller never sees an error. -/
theorem load_sent_items_total (c : Str) :
    load_sent_items none = [] ∧
    (parse_history c = none → load_sent_items (some c) = []) ∧
    (∀ st, parse_history c = some st → load_sent_items (some c) = st) := by
  refine ⟨rfl, ?_, ?_⟩
  · intro h
    simp [load_sent_items, h]
  · intro st h
    simp [load_sent_items, h]

/-- Witness for C8: a malformed history file yields the empty store, a
well-formed one the parsed store. -/
theorem load_sent_items_total_witness :
    load_sent_items (some (str "not json")) = [] ∧
    load_sent_items (some goodHist) = [(str "a", [str "x"])] :=
  ⟨(load_sent_items_total (str "not json")).2.1 (by decide),
   (load_sent_items_total goodHist).2.2 [(str "a", [str "x"])] (by decide)⟩

/-- C6: with a truthy image URL, send_single_article attempts the photo
send first; if that fails it attempts the text send with the same
formatted message text; and it reports success exactly when the photo
send or the fallback text send succeeds. -/
theorem image_fallback (e : RawEntry) (ft : Str) (incDesc pOk tOk : Bool) (u : Str)
    (h : extract_image e = some u) (hu : u ≠ []) :
    (send_single_article e ft incDesc pOk tOk).2.head? =
      some (SendAttempt.photo u (message_text e ft incDesc)) ∧
    (pOk = false →
      SendAttempt.text (message_text e ft incDesc) ∈
        (send_single_article e ft incDesc pOk tOk).2) ∧
    (send_single_article e ft incDesc pOk tOk).1 = (pOk || tOk) := by
  simp [send_single_article, h, hu]
  cases pOk <;> simp

/-- Witness for C6: an entry with an image enclosure, failing photo send,
succeeding text send. -/
theorem image_fallback_witness :
    (send_single_article entryImg (str "F") false false true).2.head? =
      some (SendAttempt.photo (str "http://x/p.png")
        (message_text entryImg (str "F") false)) ∧
    (false = false →
      SendAttempt.text (message_text entryImg (str "F") false) ∈
        (send_single_article entryImg (str "F") false false true).2) ∧
    (send_single_article entryImg (str "F") false false true).1 = (false || true) :=
  image_fallback entryImg (str "F") false false true (str "http://x/p.png") rfl
    (by decide)

/-- C7: extract_image resolves in the fixed order media_content,
enclosures, media_thumbnail, description markup, content blocks, with the
first match winning and null returned when no stage matches. -/
theorem image_resolution_order (e : RawEntry) :
    (∀ m, (e.media_content.getD []).find? media_pred = some m →
      extract_image e = m.url) ∧
    ((e.media_content.getD []).find? media_pred = none →
      ∀ m, (e.enclosures.getD []).find? encl_pred = some m →
        extract_image e = m.href) ∧
    ((e.media_content.getD []).find? media_pred = none →
      (e.enclosures.getD []).find? encl_pred = none →
      ∀ th, (e.media_thumbnail.getD []).head? = some th →
        extract_image e = th.url) ∧
    ((e.media_content.getD []).find? media_pred = none →
      (e.enclosures.getD []).find? encl_pred = none →
      (e.media_thumbnail.getD []).head? = none →
      ∀ u, find_img_src (desc_or_summary e) = some u →
        extract_image e = some u) ∧
    ((e.media_content.getD []).find? media_pred = none →
      (e.enclosures.getD []).find? encl_pred = none →
      (e.media_thumbnail.getD []).head? = none →
      find_img_src (desc_or_summary e) = none →
      extract_image e = (e.content.getD []).findSome?
        (fun c => find_img_src (c.value.getD []))) := by
  have hrest : (e.media_content.getD []).find? media_pred = none →
      extract_image e = extract_image_rest e := by
    intro h0
    cases hmc : e.media_content with
    | none => simp [extract_image, hmc]
    | some ms =>
      rw [hmc] at h0
      simp only [Option.getD_some] at h0
      simp [extract_image, hmc, h0]
  have hrest2 : (e.enclosures.getD []).find? encl_pred = none →
      extract_image_rest e = extract_image_rest2 e := by
    intro h0
    cases hen : e.enclosures with
    | none => simp [extract_image_rest, hen]
    | some es =>
      rw [hen] at h0
      simp only [Option.getD_some] at h0
      simp [extract_image_rest, hen, h0]
  have hrest3 : (e.media_thumbnail.getD []).head? = none →
      extract_image_rest2 e = extract_image_rest3 e := by
    intro h0
    cases hth : e.media_thumbnail with
    | none => simp [extract_image_rest2, hth]
    | some l =>
      rw [hth] at h0
      simp only [Option.getD_some] at h0
      simp at h0
      simp [extract_image_rest2, hth, h0]
  refine ⟨?_, ?_, ?_, ?_, ?_⟩
  · intro m hm
    cases hmc : e.media_content with
    | none => simp [hmc] at hm
    | some ms =>
      rw [hmc] at hm
      simp only [Option.getD_some] at hm
      simp [extract_image, hmc, hm]
  · intro h1 m hm
    rw [hrest h1]
    cases hen : e.enclosures with
    | none => simp [hen] at hm
    | some es =>
      rw [hen] at hm
      simp only [Option.getD_some] at hm
      simp [extract_image_rest, hen, hm]
  · intro h1 h2 th hth
    rw [hrest h1, hrest2 h2]
    cases hmt : e.media_thumbnail with
    | none => simp [hmt] at hth
    | some l =>
      rw [hmt] at hth
      simp only [Option.getD_some] at hth
      cases l with
      | nil => simp at hth
      | cons t ts =>
        simp at hth
        simp [extract_image_rest2, hmt, hth]
  · intro h1 h2 h3 u hu
    rw [hrest h1, hrest2 h2, hrest3 h3]
    simp [extract_image_rest3, hu]
  · intro h1 h2 h3 h4
    rw [hrest h1, hrest2 h2, hrest3 h3]
    simp [extract_image_rest3, h4]

/-- Witness for C7: an entry whose only image source is an enclosure
resolves to the enclosure's href. -/
theorem image_resolution_order_witness :
    extract_image entryImg = some (str "http://x/p.png") :=
  (image_resolution_order entryImg).2.1 (by decide)
    { type := some (str "image/png"), href := some (str "http://x/p.png") }
    (by decide)

/-- The rendered description never exceeds max_desc_len characters. -/
theorem truncate_description_le (d : Str) :
    (truncate_description d).length ≤ max_desc_len := by
  unfold truncate_description
  split
  · rw [List.length_append, List.length_take]
    have hel : ellipsis.length = 3 := rfl
    rw [hel]
    simp [max_desc_len]
    try omega
  · next h => exact Nat.not_lt.mp h

/-- C9 counterexample: the formatter truncates only the description, so
an entry whose title alone has 4096 characters yields a message of 4107
characters, over the 4096-character ceiling. -/
theorem message_length_counterexample :
    MAX_MESSAGE_LENGTH <
      (message_text { title := some (List.replicate 4096 'a') } [] false).length := by
  have hmsg : message_text { title := some (List.replicate 4096 'a') } [] false =
      str "â€¢ [" ++ List.replicate 4096 'a' ++ str "](" ++ ([] : Str) ++
        str ")\n_" ++ ([] : Str) ++ str "_" := rfl
  rw [hmsg]
  simp only [List.length_append, List.length_replicate]
  have h1 : (str "â€¢ [").length = 5 := rfl
  have h2 : (str "](").length = 2 := rfl
  have h3 : (str ")\n_").length = 3 := rfl
  have h4 : (str "_").length = 1 := rfl
  have h5 : ([] : Str).length = 0 := rfl
  rw [h1, h2, h3, h4, h5]
  simp [MAX_MESSAGE_LENGTH]

/-- C9 amended: whenever the effective title, link and feed title
together hold at most 3283 characters (the spec assumes these fields are
short), the formatted message stays within the 4096-character ceiling:
the fixed formatting overhead is 13 characters (the five-character bullet
prefix among them) and description truncation bounds the description part
at 800 characters. -/
theorem message_length_bounded (e : RawEntry) (ft : Str) (incDesc : Bool)
    (h : (e.title.getD (str "No title")).length + (e.link.getD []).length +
      ft.length ≤ 3283) :
    (message_text e ft incDesc).length ≤ MAX_MESSAGE_LENGTH := by
  have hdesc : (rendered_description e incDesc).length ≤ max_desc_len :=
    truncate_description_le _
  simp only [max_desc_len] at hdesc
  have h1 : (str "â€¢ [").length = 5 := rfl
  have h2 : (str "](").length = 2 := rfl
  have h3 : (str ")\n_").length = 3 := rfl
  have h4 : (str "_").length = 1 := rfl
  have h5 : (str "\n\n").length = 2 := rfl
  have hm : message_text e ft incDesc =
      if rendered_description e incDesc ≠ [] then
        (str "â€¢ [" ++ e.title.getD (str "No title") ++ str "](" ++
          e.link.getD [] ++ str ")\n_" ++ ft ++ str "_") ++ str "\n\n" ++
          rendered_description e incDesc
      else
        str "â€¢ [" ++ e.title.getD (str "No title") ++ str "](" ++
          e.link.getD [] ++ str ")\n_" ++ ft ++ str "_" := rfl
  rw [hm]
  split
  · simp only [List.length_append, h1, h2, h3, h4, h5, MAX_MESSAGE_LENGTH]
    omega
  · simp only [List.length_append, h1, h2, h3, h4, MAX_MESSAGE_LENGTH]
    omega

/-- Witness for C9 as amended: a short entry stays within the ceiling. -/
theorem message_length_bounded_witness :
    (message_text entryE1 (str "T") true).length ≤ MAX_MESSAGE_LENGTH :=
  message_length_bounded entryE1 (str "T") true (by decide)

/-- C10: check_feeds never removes or reorders recorded identifiers:
whenever a cycle completes, every record of the store loaded at its start
is an initial segment of the same feed's record in the returned store —
identifiers keep their relative positions — whatever the feed, fetch and
delivery outcomes were. -/
theorem check_feeds_history_monotone (env : Env) (hist fc : Option Str)
    (final : Store) (tr : List Event)
    (hrun : check_feeds env hist fc = Except.ok (final, tr)) :
    ∀ F l, lookup? (load_sent_items hist) F = some l →
      ∃ ext, lookup? final F = some (l ++ ext) := by
  intro F l hl
  unfold check_feeds at hrun
  cases hlf : load_feeds fc with
  | error err => rw [hlf] at hrun; simp at hrun
  | ok feeds =>
    rw [hlf] at hrun
    by_cases hfe : feeds = []
    · simp [hfe] at hrun
      obtain ⟨h1, _⟩ := hrun
      exact ⟨[], by rw [← h1, hl]; simp⟩
    · simp [hfe] at hrun
      have h1 : final = (feeds_loop env feeds (load_sent_items hist) 0).1 :=
        (congrArg Prod.fst hrun).symm
      rw [h1]
      exact feeds_loop_storeExt env feeds (load_sent_items hist) 0 F l hl

/-- Witness for C10: a loaded record survives an empty cycle as an
initial segment. -/
theorem check_feeds_history_monotone_witness :
    ∃ ext, lookup? runMono.1 (str "a") = some ([str "x"] ++ ext) :=
  check_feeds_history_monotone envOrd (some goodHist) (some (str ""))
    runMono.1 runMono.2 rfl (str "a") [str "x"] (by decide)

/-- C2: the dedup invariant.  Over any run of poll cycles from a store:
an identifier recorded before the run is never attempted (so never
delivered) in any of its cycles; an identifier recorded after the run was
recorded before it or was delivered by a successful attempt during it (on
delivery failure nothing is recorded); every persistence of the store
during the run follows a successful delivery of the identifier it
records.  The last conjunct restates the first for one real check_feeds
cycle, with the store as loaded from the history file. -/
theorem dedup_invariant (cycles : List (Env × List Str)) (s : Store) (F X : Str) :
    (X ∈ lookupD s F → ∀ b, Event.attempt F X b ∉ (run_cycles cycles s).2) ∧
    (X ∈ lookupD (run_cycles cycles s).1 F →
      X ∈ lookupD s F ∨ Event.attempt F X true ∈ (run_cycles cycles s).2) ∧
    (∀ st, Event.save F X st ∈ (run_cycles cycles s).2 →
      Event.attempt F X true ∈ (run_cycles cycles s).2) ∧
    (∀ env hist fc final tr, check_feeds env hist fc = Except.ok (final, tr) →
      X ∈ lookupD (load_sent_items hist) F → ∀ b, Event.attempt F X b ∉ tr) := by
  refine ⟨?_, ?_, ?_, ?_⟩
  · intro hX b
    exact run_cycles_no_reattempt cycles s F X b hX
  · intro hX
    exact run_cycles_mem_lookupD cycles s F X hX
  · intro st hst
    exact run_cycles_save_attempt cycles s F X st hst
  · intro env hist fc final tr hrun hX b
    unfold check_feeds at hrun
    cases hlf : load_feeds fc with
    | error err => rw [hlf] at hrun; simp at hrun
    | ok feeds =>
      rw [hlf] at hrun
      by_cases hfe : feeds = []
      · simp [hfe] at hrun
        rw [hrun.2]
        simp
      · simp [hfe] at hrun
        have h2 : tr = (feeds_loop env feeds (load_sent_items hist) 0).2 :=
          (congrArg Prod.snd hrun).symm
        rw [h2]
        exact feeds_loop_no_reattempt env feeds (load_sent_items hist) 0 F X b hX

/-- Witness for C2: with the history holding i2, a cycle over the
three-entry feed never attempts i2. -/
theorem dedup_invariant_witness :
    Event.attempt (str "u") (str "i2") true ∉
      (run_cycles [(envOrd, [str "u"])] [(str "u", [str "i2"])]).2 :=
  (dedup_invariant [(envOrd, [str "u"])] [(str "u", [str "i2"])]
    (str "u") (str "i2")).1 (by decide) true

/-- C4: over a cycle with a single feed, the identifiers attempted are
exactly the new-entry identifiers in the reverse of feed order, so with a
newest-first feed the oldest new entry is delivered first. -/
theorem delivery_order_oldest_first (env : Env) (hist fc : Option Str) (F : Str)
    (pairs : List (Str × RawEntry)) (final : Store) (tr : List Event)
    (hf : load_feeds fc = Except.ok [F])
    (hs : pyStrip F ≠ [])
    (hnz : (env.fetch F).entries ≠ [])
    (hnp : new_pairs (env.fetch F).entries
        (lookupD (setdefault (load_sent_items hist) F) F) = Except.ok pairs)
    (hrun : check_feeds env hist fc = Except.ok (final, tr)) :
    attempted_ids tr = (pairs.map Prod.fst).reverse := by
  unfold check_feeds at hrun
  rw [hf] at hrun
  simp at hrun
  have h2 : tr = (feeds_loop env [F] (load_sent_items hist) 0).2 :=
    (congrArg Prod.snd hrun).symm
  rw [h2]
  simp [feeds_loop]
  unfold process_feed
  simp [hs, hnz, hnp]
  rw [deliver_loop_attempted]
  simp

/-- Witness for C4: the feed [E3, E2, E1], all new, is attempted in the
order i1, i2, i3. -/
theorem delivery_order_oldest_first_witness :
    attempted_ids runOrd.2 = (pairsOrd.map Prod.fst).reverse :=
  delivery_order_oldest_first envOrd none (some (str "u")) (str "u") pairsOrd
    runOrd.1 runOrd.2 rfl (by decide) (by decide) rfl rfl

/-- With both transport oracles answering true, send_single_article
succeeds whatever the entry. -/
theorem send_single_article_true (e : RawEntry) (ft : Str) (d : Bool) :
    (send_single_article e ft d true true).1 = true := by
  unfold send_single_article
  cases extract_image e with
  | none => rfl
  | some url => by_cases hu : url ≠ [] <;> simp [hu]

/-- With every transport call succeeding, the delivery loop appends every
input identifier to the feed's record — nothing ever trims it. -/
theorem deliver_loop_all_success (env : Env)
    (hp : ∀ n, env.photoOk n = true) (ht : ∀ n, env.textOk n = true)
    (f t : Str) :
    ∀ pairs s n l, lookup? s f = some l →
      lookup? (deliver_loop env f t pairs s n).1 f =
        some (l ++ pairs.map Prod.fst) := by
  intro pairs
  induction pairs with
  | nil => intro s n l hl; simp [deliver_loop, hl]
  | cons p rest ih =>
    intro s n l hl
    obtain ⟨eid, e⟩ := p
    have hok : (send_single_article e t env.incDesc (env.photoOk n) (env.textOk n)).1 = true := by
      rw [hp n, ht n]; exact send_single_article_true e t env.incDesc
    simp [deliver_loop, hok]
    have := ih (appendId s f eid) (n + 1) (l ++ [eid])
      (lookup?_appendId_self s f eid l hl)
    rw [this]
    simp

/-- The new-entry scan keeps every one of k copies of the id-only entry
against an empty history record. -/
theorem new_pairs_replicate (k : Nat) :
    new_pairs (List.replicate k entryX) [] =
      Except.ok (List.replicate k (str "x", entryX)) := by
  induction k with
  | zero => rfl
  | succ n ih =>
    have hid : entry_dedup_id entryX = Except.ok (str "x") := rfl
    simp [List.replicate_succ, new_pairs, hid, ih]

/-- Running one cycle of the k-entry all-success scenario leaves a
history record of exactly k identifiers. -/
theorem feeds_loop_envK (k : Nat) (hk : 0 < k) :
    lookup? (feeds_loop (envK k) [str "u"] [] 0).1 (str "u") =
      some (List.replicate k (str "x")) := by
  simp [feeds_loop]
  unfold process_feed
  have hs : ¬ pyStrip (str "u") = [] := by decide
  have hnz : ¬ ((envK k).fetch (str "u")).entries = [] := by
    show ¬ List.replicate k entryX = []
    simp
    omega
  have hsd : setdefault ([] : Store) (str "u") = [(str "u", [])] := rfl
  have hld : lookupD (setdefault ([] : Store) (str "u")) (str "u") = [] := rfl
  have hnp : new_pairs ((envK k).fetch (str "u")).entries
      (lookupD (setdefault ([] : Store) (str "u")) (str "u")) =
      Except.ok (List.replicate k (str "x", entryX)) := by
    rw [hld]
    exact new_pairs_replicate k
  simp [hs, hnz, hnp]
  have hkey : lookup? (setdefault ([] : Store) (str "u")) (str "u") = some [] := rfl
  rw [deliver_loop_all_success (envK k) (fun _ => rfl) (fun _ => rfl) _ _ _ _ _ _ hkey]
  simp [List.map_reverse]

set_option maxRecDepth 4000 in
/-- C1 (code-bug evidence): 201 successful deliveries on one feed leave a
201-identifier history record — check_feeds appends without ever evicting
(MAX_HISTORY_ITEMS is defined in config.py but never referenced), so the
cap the spec states does not hold. -/
theorem history_cap_violated :
    MAX_HISTORY_ITEMS <
      (lookupD ((check_feeds (envK (MAX_HISTORY_ITEMS + 1)) none
        (some (str "u"))).toOption.getD ([], [])).1 (str "u")).length := by
  have hred : (check_feeds (envK (MAX_HISTORY_ITEMS + 1)) none
      (some (str "u"))).toOption.getD ([], []) =
      feeds_loop (envK (MAX_HISTORY_ITEMS + 1)) [str "u"] [] 0 := rfl
  rw [hred]
  rw [lookupD, feeds_loop_envK (MAX_HISTORY_ITEMS + 1) (by simp)]
  simp [MAX_HISTORY_ITEMS]
